import Mathlib

/-!
Verification development for the pdf-polish repository (frontend service-quote
editor and customer review page).

The embedding translates the TypeScript source into Lean:
* JavaScript `Number` arithmetic is modelled by exact rationals (ℚ); the single
  rounding primitive the code uses, `Math.round`, is modelled exactly as
  `fun q => ⌊q + 1/2⌋` (round half toward positive infinity), which is the
  JavaScript semantics on exact values.
* Fallible parsing is modelled with `Option`.
* React state updates are modelled as pure state-transition functions.

Sources embedded here:
* `frontend/src/MainApp.tsx` — `DEFAULT_TAX_RATE`, `parseMoney`, `money2`,
  `withComputedTotals`, the `fields` state machine (`refreshFields`, the
  editor `onChange` handler, `onSaveFinal`).
* `frontend/src/pages/ReviewPage.tsx` — claim decoding results, `valid`,
  `isFinal`, `onConfirm`, the confirm-button guard, the decision-check effect.
* The backend Decision Recorder is not part of the repository sources; where a
  claim depends on it, it is modelled from the specification (marked
  `Modelled from the spec:`).
-/

/-! ## Money model (MainApp.tsx lines 9-38) -/

/-- JavaScript `Math.round` on exact values: round half toward +∞. -/
def jsRound (q : ℚ) : ℤ := ⌊q + 1 / 2⌋

/-- The repeated idiom `Math.round(x * 100) / 100` (round to 2 decimals). -/
def round2 (q : ℚ) : ℚ := (jsRound (q * 100) : ℚ) / 100

/-- `const DEFAULT_TAX_RATE = 0.13` (MainApp.tsx line 10, Ontario HST). -/
def DEFAULT_TAX_RATE : ℚ := 13 / 100

/-- The character class kept by `String(v).replace(/[^0-9.\-]/g, "")`:
digits, the decimal point, and the minus sign. -/
def isMoneyChar (c : Char) : Bool := c.isDigit || c == '.' || c == '-'

/-- Decimal value of a digit string (most significant first). -/
def digitsVal (ds : List Char) : ℕ :=
  ds.foldl (fun a c => 10 * a + (c.toNat - '0'.toNat)) 0

/-- JavaScript `Number(t)` on an unsigned body drawn from `{0-9, ., -}`:
the body must be `digits`, `digits . digits?` or `. digits` — all characters
digits, at most one decimal point, at least one digit.  Returns the exact
decimal value, `none` where JavaScript yields `NaN`. -/
def parseUnsigned (cs : List Char) : Option ℚ :=
  match cs.dropWhile (fun c => c != '.') with
  | [] =>
      if (cs.takeWhile (fun c => c != '.')).all Char.isDigit
          && !(cs.takeWhile (fun c => c != '.')).isEmpty then
        some (digitsVal (cs.takeWhile (fun c => c != '.')))
      else none
  | _ :: frac =>
      if (cs.takeWhile (fun c => c != '.')).all Char.isDigit
          && frac.all Char.isDigit
          && (!(cs.takeWhile (fun c => c != '.')).isEmpty || !frac.isEmpty) then
        some ((digitsVal (cs.takeWhile (fun c => c != '.')) : ℚ)
          + (digitsVal frac : ℚ) / (10 : ℚ) ^ frac.length)
      else none

/-- JavaScript `Number(t)` for `t` drawn from `{0-9, ., -}`: the empty string
is `0`; a single leading minus negates a valid unsigned body; anything else
(a non-leading or repeated minus, several dots, no digit) is `NaN` (`none`). -/
def parseNumber (cs : List Char) : Option ℚ :=
  match cs with
  | [] => some 0
  | c :: rest =>
      if c = '-' then (parseUnsigned rest).map (fun q => -q)
      else parseUnsigned (c :: rest)

/-- `parseMoney` (MainApp.tsx lines 12-16): strip every character other than
digits, dot and minus, parse with `Number`, and fall back to `0` when the
result is not finite.  (The `.trim()` in the source is a no-op because no
whitespace survives the replace.) -/
def parseMoney (s : String) : ℚ :=
  (parseNumber (s.data.filter isMoneyChar)).getD 0

/-- Digit string for an integer amount of cents, as produced by
`(k / 100).toFixed(2)`. -/
def centsToString2 (k : ℤ) : String :=
  (if k < 0 then "-" else "")
    ++ toString (k.natAbs / 100) ++ "."
    ++ (if k.natAbs % 100 < 10 then "0" ++ toString (k.natAbs % 100)
        else toString (k.natAbs % 100))

/-- `money2` (MainApp.tsx lines 18-20): `(Math.round(n * 100) / 100).toFixed(2)`. -/
def money2 (n : ℚ) : String := centsToString2 (jsRound (n * 100))

/-! ## Service quote fields (types.ts) and withComputedTotals -/

/-- `SQItem` (types.ts line 28). -/
structure SQItem where
  name : String
  price : String
  description : String
deriving DecidableEq

/-- `ServiceQuoteFields` (types.ts lines 30-50). -/
structure ServiceQuoteFields where
  client_name : String
  client_phone : String
  client_email : String
  company_name : String
  company_address : String
  property_name : String
  property_address : String
  quote_number : String
  quote_date : String
  quote_description : String
  items : List SQItem
  subtotal : String
  tax : String
  total : String
deriving DecidableEq

/-- MainApp.tsx line 27: `(f.items || []).reduce((sum, it) => sum + parseMoney(it.price), 0)`. -/
def itemsSubtotalQ (items : List SQItem) : ℚ :=
  items.foldl (fun sum it => sum + parseMoney it.price) 0

/-- MainApp.tsx line 28: `Math.round(itemsSubtotal * 100) / 100`. -/
def subtotalQ (items : List SQItem) : ℚ := round2 (itemsSubtotalQ items)

/-- MainApp.tsx line 29: `Math.round(subtotal * DEFAULT_TAX_RATE * 100) / 100`. -/
def taxQ (items : List SQItem) : ℚ := round2 (subtotalQ items * DEFAULT_TAX_RATE)

/-- MainApp.tsx line 30: `Math.round((subtotal + tax) * 100) / 100`. -/
def totalQ (items : List SQItem) : ℚ := round2 (subtotalQ items + taxQ items)

/-- `withComputedTotals` (MainApp.tsx lines 26-38): spread `f` and overwrite
the three derived fields with freshly computed strings. -/
def withComputedTotals (f : ServiceQuoteFields) : ServiceQuoteFields :=
  { f with
    subtotal := money2 (subtotalQ f.items)
    tax := money2 (taxQ f.items)
    total := money2 (totalQ f.items) }

/-! ## JavaScript string helpers

Core `String.trim` / `String.toUpper` are byte-position based and do not
reduce; the JavaScript `.trim()` / `.toUpperCase()` used by the source are
modelled list-based (same semantics on the ASCII data involved). -/

/-- JavaScript `s.trim()`. -/
def jsTrim (s : String) : String :=
  String.mk (((s.data.dropWhile Char.isWhitespace).reverse.dropWhile
    Char.isWhitespace).reverse)

/-- JavaScript `s.toUpperCase()`. -/
def jsToUpper (s : String) : String := String.mk (s.data.map Char.toUpper)

/-- A quote-fields value with given items and all string fields empty
(used to instantiate theorems on concrete inputs). -/
def mkFields (its : List SQItem) : ServiceQuoteFields :=
  { client_name := "", client_phone := "", client_email := "", company_name := ""
    company_address := "", property_name := "", property_address := ""
    quote_number := "", quote_date := "", quote_description := ""
    items := its, subtotal := "", tax := "", total := "" }

/-! ## Arithmetic facts about the rounding pipeline -/

/-- `Math.round` is the identity on (rationals that are) integers. -/
theorem jsRound_intCast (n : ℤ) : jsRound (n : ℚ) = n := by
  unfold jsRound
  rw [add_comm, Int.floor_add_int]
  norm_num

/-- Rounding to two decimals fixes any whole number of cents. -/
theorem round2_intCast_div (k : ℤ) : round2 ((k : ℚ) / 100) = (k : ℚ) / 100 := by
  unfold round2
  have h : ((k : ℚ) / 100) * 100 = (k : ℚ) := by field_simp
  rw [h, jsRound_intCast]

/-- Claim C1: for every sequence of line items, the totals produced by
`withComputedTotals` satisfy `total = subtotal + tax` and
`tax = round(subtotal * rate, 2)` exactly, where the rate is the fixed
constant `DEFAULT_TAX_RATE = 0.13`, `subtotal` is the two-decimal rounding of
the summed parsed prices, and the single rounding mode is the
implementation's `Math.round` (`round2`), both at the level of the exact
rational pipeline and of the emitted strings. -/
theorem c1_totals_relation (f : ServiceQuoteFields) :
    totalQ f.items = subtotalQ f.items + taxQ f.items
    ∧ taxQ f.items = round2 (subtotalQ f.items * DEFAULT_TAX_RATE)
    ∧ subtotalQ f.items = round2 (itemsSubtotalQ f.items)
    ∧ (withComputedTotals f).total = money2 (subtotalQ f.items + taxQ f.items)
    ∧ (withComputedTotals f).tax
        = money2 (round2 (subtotalQ f.items * DEFAULT_TAX_RATE)) := by
  have h : subtotalQ f.items + taxQ f.items
      = ((jsRound (itemsSubtotalQ f.items * 100)
          + jsRound (subtotalQ f.items * DEFAULT_TAX_RATE * 100) : ℤ) : ℚ) / 100 := by
    unfold taxQ subtotalQ round2
    push_cast
    ring
  have key : totalQ f.items = subtotalQ f.items + taxQ f.items := by
    calc totalQ f.items = round2 (subtotalQ f.items + taxQ f.items) := rfl
      _ = subtotalQ f.items + taxQ f.items := by rw [h, round2_intCast_div, ← h]
  refine ⟨key, rfl, rfl, ?_, rfl⟩
  calc (withComputedTotals f).total = money2 (totalQ f.items) := rfl
    _ = money2 (subtotalQ f.items + taxQ f.items) := by rw [key]

/-- Claim C8: the totals recomputation is idempotent — applying
`withComputedTotals` twice yields exactly the same snapshot (hence the same
subtotal, tax and total strings) as applying it once. -/
theorem c8_recompute_idempotent (f : ServiceQuoteFields) :
    withComputedTotals (withComputedTotals f) = withComputedTotals f := rfl

/-- Claim C10: `withComputedTotals` changes only the three derived fields —
the items sequence and every other field are returned unchanged. -/
theorem c10_frame_effect (f : ServiceQuoteFields) :
    (withComputedTotals f).items = f.items
    ∧ (withComputedTotals f).client_name = f.client_name
    ∧ (withComputedTotals f).client_phone = f.client_phone
    ∧ (withComputedTotals f).client_email = f.client_email
    ∧ (withComputedTotals f).company_name = f.company_name
    ∧ (withComputedTotals f).company_address = f.company_address
    ∧ (withComputedTotals f).property_name = f.property_name
    ∧ (withComputedTotals f).property_address = f.property_address
    ∧ (withComputedTotals f).quote_number = f.quote_number
    ∧ (withComputedTotals f).quote_date = f.quote_date
    ∧ (withComputedTotals f).quote_description = f.quote_description :=
  ⟨rfl, rfl, rfl, rfl, rfl, rfl, rfl, rfl, rfl, rfl, rfl⟩

/-- Claim C6: on items `[{price:"100.00"}, {price:"50.5"}]` with the fixed
rate `0.13`, the computation returns subtotal `"150.50"`, and — under the
implementation's single rounding rule, round half up — tax `"19.57"` and
total `"170.07"`. -/
theorem c6_scenario_concrete :
    (withComputedTotals (mkFields [⟨"", "100.00", ""⟩, ⟨"", "50.5", ""⟩])).subtotal = "150.50"
    ∧ (withComputedTotals (mkFields [⟨"", "100.00", ""⟩, ⟨"", "50.5", ""⟩])).tax = "19.57"
    ∧ (withComputedTotals (mkFields [⟨"", "100.00", ""⟩, ⟨"", "50.5", ""⟩])).total = "170.07" := by
  have h1 : parseMoney "100.00" = 100 := by
    have h : parseMoney "100.00" = ((100 : ℕ) : ℚ) + ((0 : ℕ) : ℚ) / (10 : ℚ) ^ (2 : ℕ) := rfl
    rw [h]; norm_num
  have h2 : parseMoney "50.5" = 101 / 2 := by
    have h : parseMoney "50.5" = ((50 : ℕ) : ℚ) + ((5 : ℕ) : ℚ) / (10 : ℚ) ^ (1 : ℕ) := rfl
    rw [h]; norm_num
  have hitems : itemsSubtotalQ [⟨"", "100.00", ""⟩, ⟨"", "50.5", ""⟩] = 301 / 2 := by
    unfold itemsSubtotalQ
    rw [List.foldl_cons, List.foldl_cons, List.foldl_nil, h1, h2]
    norm_num
  have hsub : subtotalQ [⟨"", "100.00", ""⟩, ⟨"", "50.5", ""⟩] = 301 / 2 := by
    unfold subtotalQ round2
    rw [hitems]
    norm_num [jsRound]
  have htax : taxQ [⟨"", "100.00", ""⟩, ⟨"", "50.5", ""⟩] = 1957 / 100 := by
    unfold taxQ round2
    rw [hsub]
    norm_num [jsRound, DEFAULT_TAX_RATE]
  have htot : totalQ [⟨"", "100.00", ""⟩, ⟨"", "50.5", ""⟩] = 17007 / 100 := by
    unfold totalQ round2
    rw [hsub, htax]
    norm_num [jsRound]
  refine ⟨?_, ?_, ?_⟩
  · show money2 (subtotalQ [⟨"", "100.00", ""⟩, ⟨"", "50.5", ""⟩]) = "150.50"
    rw [hsub]
    unfold money2
    rw [show jsRound ((301 : ℚ) / 2 * 100) = 15050 by norm_num [jsRound]]
    decide
  · show money2 (taxQ [⟨"", "100.00", ""⟩, ⟨"", "50.5", ""⟩]) = "19.57"
    rw [htax]
    unfold money2
    rw [show jsRound ((1957 : ℚ) / 100 * 100) = 1957 by norm_num [jsRound]]
    decide
  · show money2 (totalQ [⟨"", "100.00", ""⟩, ⟨"", "50.5", ""⟩]) = "170.07"
    rw [htot]
    unfold money2
    rw [show jsRound ((17007 : ℚ) / 100 * 100) = 17007 by norm_num [jsRound]]
    decide

/-! ## The price grammar (claim C7)

`Number(t)` succeeds on a string over `{0-9, ., -}` exactly when it consists
of an optional single leading minus sign followed by digits with at most one
decimal point and at least one digit.  `moneyGrammar` states that grammar
independently of the parser; the lemmas below connect the two. -/

/-- Character allowed in the body of a numeral: a digit or the decimal point. -/
def isDigitOrDot (c : Char) : Bool := c.isDigit || c == '.'

/-- Body grammar (after the optional leading minus): at most one decimal
point, at least one digit, and nothing but digits and the decimal point. -/
def moneyBodyGrammar (cs : List Char) : Bool :=
  decide (cs.count '.' ≤ 1) && cs.any Char.isDigit && cs.all isDigitOrDot

/-- Full price grammar: an optional single leading minus sign before the
body.  The empty string is not in the grammar (it contributes the default). -/
def moneyGrammar : List Char → Bool
  | [] => false
  | c :: rest =>
      if c = '-' then moneyBodyGrammar rest else moneyBodyGrammar (c :: rest)

theorem dropWhile_shape (p : Char → Bool) (l : List Char) :
    l.dropWhile p = [] ∨ ∃ c t, l.dropWhile p = c :: t ∧ p c = false := by
  induction l with
  | nil => exact Or.inl rfl
  | cons a l ih =>
    by_cases h : p a
    · simpa [List.dropWhile_cons, h] using ih
    · exact Or.inr ⟨a, l, by simp [List.dropWhile_cons, h], by simp [h]⟩

theorem parseUnsigned_none_of_not_body (cs : List Char)
    (h : moneyBodyGrammar cs = false) : parseUnsigned cs = none := by
  rcases dropWhile_shape (fun c => c != '.') cs with hd | ⟨d, frac, hd, hpd⟩
  · have htw : cs.takeWhile (fun c => c != '.') = cs := by
      have hap := List.takeWhile_append_dropWhile (p := fun c => c != '.') (l := cs)
      rw [hd, List.append_nil] at hap
      exact hap
    have hcond : ¬ ((cs.takeWhile (fun c => c != '.')).all Char.isDigit
        && !(cs.takeWhile (fun c => c != '.')).isEmpty) = true := by
      intro hc
      rw [htw] at hc
      rcases Bool.and_eq_true_iff.mp hc with ⟨hall, hne⟩
      have hne' : cs ≠ [] := by
        cases cs with
        | nil => simp at hne
        | cons x l => exact List.cons_ne_nil x l
      have hall' := List.all_eq_true.mp hall
      have hgram : moneyBodyGrammar cs = true := by
        unfold moneyBodyGrammar
        refine Bool.and_eq_true_iff.mpr ⟨Bool.and_eq_true_iff.mpr ⟨?_, ?_⟩, ?_⟩
        · have : '.' ∉ cs := by
            intro hmem
            have := hall' '.' hmem
            simp [Char.isDigit] at this
          simp [List.count_eq_zero.mpr this]
        · cases cs with
          | nil => exact absurd rfl hne'
          | cons x l =>
            exact List.any_eq_true.mpr ⟨x, List.mem_cons_self x l, hall' x (List.mem_cons_self x l)⟩
        · exact List.all_eq_true.mpr fun x hx => by
            simp [isDigitOrDot, hall' x hx]
      rw [hgram] at h
      simp at h
    unfold parseUnsigned
    rw [hd]
    simp only [Bool.not_eq_true] at hcond ⊢
    rw [if_neg (by simpa using hcond)]
  · have hd' : d = '.' := by simpa using hpd
    subst hd'
    have hcs : cs = cs.takeWhile (fun c => c != '.') ++ '.' :: frac := by
      conv_lhs => rw [← List.takeWhile_append_dropWhile (p := fun c => c != '.') (l := cs)]
      rw [hd]
    have hcond : ¬ ((cs.takeWhile (fun c => c != '.')).all Char.isDigit
        && frac.all Char.isDigit
        && (!(cs.takeWhile (fun c => c != '.')).isEmpty || !frac.isEmpty)) = true := by
      intro hc
      rcases Bool.and_eq_true_iff.mp hc with ⟨hc1, hne⟩
      rcases Bool.and_eq_true_iff.mp hc1 with ⟨halltw, hallfr⟩
      have halltw' := List.all_eq_true.mp halltw
      have hallfr' := List.all_eq_true.mp hallfr
      have hgram : moneyBodyGrammar cs = true := by
        unfold moneyBodyGrammar
        refine Bool.and_eq_true_iff.mpr ⟨Bool.and_eq_true_iff.mpr ⟨?_, ?_⟩, ?_⟩
        · have h1 : '.' ∉ cs.takeWhile (fun c => c != '.') := by
            intro hmem
            have := List.mem_takeWhile_imp hmem
            simp at this
          have h2 : '.' ∉ frac := by
            intro hmem
            have := hallfr' '.' hmem
            simp [Char.isDigit] at this
          rw [hcs]
          simp [List.count_append, List.count_cons_self,
            List.count_eq_zero.mpr h1, List.count_eq_zero.mpr h2]
        · rcases Bool.or_eq_true_iff.mp hne with htw | hfr
          · have : cs.takeWhile (fun c => c != '.') ≠ [] := by
              cases hx : cs.takeWhile (fun c => c != '.') with
              | nil => rw [hx] at htw; simp at htw
              | cons y l => exact List.cons_ne_nil y l
            rcases List.exists_mem_of_ne_nil _ this with ⟨y, hy⟩
            refine List.any_eq_true.mpr ⟨y, ?_, halltw' y hy⟩
            rw [hcs]
            exact List.mem_append_left _ hy
          · have : frac ≠ [] := by
              cases hx : frac with
              | nil => rw [hx] at hfr; simp at hfr
              | cons y l => exact List.cons_ne_nil y l
            rcases List.exists_mem_of_ne_nil _ this with ⟨y, hy⟩
            refine List.any_eq_true.mpr ⟨y, ?_, hallfr' y hy⟩
            rw [hcs]
            exact List.mem_append_right _ (List.mem_cons_of_mem _ hy)
        · refine List.all_eq_true.mpr fun x hx => ?_
          rw [hcs] at hx
          rcases List.mem_append.mp hx with hx | hx
          · simp [isDigitOrDot, halltw' x hx]
          · rcases List.mem_cons.mp hx with hx | hx
            · simp [isDigitOrDot, hx]
            · simp [isDigitOrDot, hallfr' x hx]
      rw [hgram] at h
      simp at h
    unfold parseUnsigned
    rw [hd]
    simp only [Bool.not_eq_true] at hcond ⊢
    rw [if_neg (by simpa using hcond)]

theorem parseUnsigned_isSome_of_body (cs : List Char)
    (h : moneyBodyGrammar cs = true) : (parseUnsigned cs).isSome = true := by
  rcases Bool.and_eq_true_iff.mp h with ⟨h1, hall⟩
  rcases Bool.and_eq_true_iff.mp h1 with ⟨hcount, hany⟩
  have hcount' : cs.count '.' ≤ 1 := of_decide_eq_true hcount
  have hall' := List.all_eq_true.mp hall
  rcases List.any_eq_true.mp hany with ⟨y, hy, hydig⟩
  rcases dropWhile_shape (fun c => c != '.') cs with hd | ⟨d, frac, hd, hpd⟩
  · have htw : cs.takeWhile (fun c => c != '.') = cs := by
      have hap := List.takeWhile_append_dropWhile (p := fun c => c != '.') (l := cs)
      rw [hd, List.append_nil] at hap
      exact hap
    have hdig : cs.all Char.isDigit = true := by
      refine List.all_eq_true.mpr fun x hx => ?_
      have hx' : x ∈ cs.takeWhile (fun c => c != '.') := by rw [htw]; exact hx
      have hnd := List.mem_takeWhile_imp hx'
      rcases Bool.or_eq_true_iff.mp (hall' x hx) with hh | hh
      · exact hh
      · exfalso
        have hxe : x = '.' := by simpa using hh
        rw [hxe] at hnd
        simp at hnd
    have hne : cs.isEmpty = false := by
      cases cs with
      | nil => exact absurd hy (List.not_mem_nil y)
      | cons a l => rfl
    unfold parseUnsigned
    rw [hd]
    dsimp only
    rw [htw, hdig, hne]
    simp
  · have hd' : d = '.' := by simpa using hpd
    subst hd'
    have hcs : cs = cs.takeWhile (fun c => c != '.') ++ '.' :: frac := by
      conv_lhs => rw [← List.takeWhile_append_dropWhile (p := fun c => c != '.') (l := cs)]
      rw [hd]
    have htwdot : '.' ∉ cs.takeWhile (fun c => c != '.') := by
      intro hmem
      have := List.mem_takeWhile_imp hmem
      simp at this
    have hfrdot : '.' ∉ frac := by
      intro hmem
      have hge : 2 ≤ cs.count '.' := by
        rw [hcs, List.count_append, List.count_cons_self]
        have : 1 ≤ frac.count '.' := List.one_le_count_iff.mpr hmem
        omega
      omega
    have htwall : (cs.takeWhile (fun c => c != '.')).all Char.isDigit = true := by
      refine List.all_eq_true.mpr fun x hx => ?_
      have hdd := hall' x (by rw [hcs]; exact List.mem_append_left _ hx)
      rcases Bool.or_eq_true_iff.mp hdd with hh | hh
      · exact hh
      · exfalso
        have : x = '.' := by simpa using hh
        exact htwdot (this ▸ hx)
    have hfrall : frac.all Char.isDigit = true := by
      refine List.all_eq_true.mpr fun x hx => ?_
      have hdd := hall' x (by rw [hcs]; exact List.mem_append_right _ (List.mem_cons_of_mem _ hx))
      rcases Bool.or_eq_true_iff.mp hdd with hh | hh
      · exact hh
      · exfalso
        have : x = '.' := by simpa using hh
        exact hfrdot (this ▸ hx)
    have hne : (!(cs.takeWhile (fun c => c != '.')).isEmpty || !frac.isEmpty) = true := by
      have hy' : y ∈ cs.takeWhile (fun c => c != '.') ++ '.' :: frac := hcs ▸ hy
      rcases List.mem_append.mp hy' with hh | hh
      · have : (cs.takeWhile (fun c => c != '.')).isEmpty = false := by
          cases hx : cs.takeWhile (fun c => c != '.') with
          | nil => rw [hx] at hh; exact absurd hh (List.not_mem_nil y)
          | cons a l => rfl
        rw [this]
        rfl
      · rcases List.mem_cons.mp hh with hh | hh
        · exfalso
          rw [hh] at hydig
          simp [Char.isDigit] at hydig
        · have : frac.isEmpty = false := by
            cases hx : frac with
            | nil => rw [hx] at hh; exact absurd hh (List.not_mem_nil y)
            | cons a l => rfl
          rw [this]
          simp
    unfold parseUnsigned
    rw [hd]
    dsimp only
    rw [htwall, hfrall, hne]
    simp

theorem parseNumber_getD_zero_of_not_grammar (cs : List Char)
    (h : moneyGrammar cs = false) : (parseNumber cs).getD 0 = 0 := by
  cases cs with
  | nil => rfl
  | cons c rest =>
    unfold parseNumber
    unfold moneyGrammar at h
    dsimp only at h ⊢
    by_cases hc : c = '-'
    · rw [if_pos hc] at h ⊢
      rw [parseUnsigned_none_of_not_body rest h]
      rfl
    · rw [if_neg hc] at h ⊢
      rw [parseUnsigned_none_of_not_body (c :: rest) h]
      rfl

theorem parseNumber_isSome_of_grammar (cs : List Char)
    (h : moneyGrammar cs = true) : (parseNumber cs).isSome = true := by
  cases cs with
  | nil => simp [moneyGrammar] at h
  | cons c rest =>
    unfold parseNumber
    unfold moneyGrammar at h
    dsimp only at h ⊢
    by_cases hc : c = '-'
    · rw [if_pos hc] at h ⊢
      rw [Option.isSome_map']
      exact parseUnsigned_isSome_of_body rest h
    · rw [if_neg hc] at h ⊢
      exact parseUnsigned_isSome_of_body (c :: rest) h

theorem itemsSubtotalQ_foldl_shift (l : List SQItem) (a : ℚ) :
    l.foldl (fun sum it => sum + parseMoney it.price) a = a + itemsSubtotalQ l := by
  induction l generalizing a with
  | nil => simp [itemsSubtotalQ]
  | cons x l ih =>
    rw [List.foldl_cons, ih]
    have hx : itemsSubtotalQ (x :: l) = (0 + parseMoney x.price) + itemsSubtotalQ l := by
      unfold itemsSubtotalQ
      rw [List.foldl_cons, ih]
      rfl
    rw [hx]
    ring

/-- Claim C7: the price parser strips everything except digits, a single
leading minus sign and the decimal point (only the kept characters determine
the result); a price whose stripped form is outside that grammar — including
the empty string — parses to `NaN` and contributes exactly `0` to the items
subtotal, while every in-grammar price parses successfully. -/
theorem c7_price_parser_spec :
    (∀ s : String, parseMoney (String.mk (s.data.filter isMoneyChar)) = parseMoney s)
    ∧ (∀ s : String, moneyGrammar (s.data.filter isMoneyChar) = false → parseMoney s = 0)
    ∧ (∀ s : String, moneyGrammar (s.data.filter isMoneyChar) = true →
        (parseNumber (s.data.filter isMoneyChar)).isSome = true)
    ∧ (∀ (pre post : List SQItem) (it : SQItem),
        moneyGrammar (it.price.data.filter isMoneyChar) = false →
        itemsSubtotalQ (pre ++ it :: post) = itemsSubtotalQ (pre ++ post)) := by
  have hstrip : ∀ s : String,
      parseMoney (String.mk (s.data.filter isMoneyChar)) = parseMoney s := by
    intro s
    unfold parseMoney
    have h : (String.mk (s.data.filter isMoneyChar)).data.filter isMoneyChar
        = s.data.filter isMoneyChar :=
      List.filter_eq_self.mpr fun a ha => List.of_mem_filter ha
    rw [h]
  have hzero : ∀ s : String,
      moneyGrammar (s.data.filter isMoneyChar) = false → parseMoney s = 0 := by
    intro s h
    unfold parseMoney
    exact parseNumber_getD_zero_of_not_grammar _ h
  refine ⟨hstrip, hzero, fun s h => parseNumber_isSome_of_grammar _ h, ?_⟩
  intro pre post it h
  have hz : parseMoney it.price = 0 := hzero it.price h
  unfold itemsSubtotalQ
  rw [List.foldl_append, List.foldl_append, List.foldl_cons, hz, add_zero]

/-- Witness for C7 at concrete inputs: `"$12.50"` parses the same as its
stripped form, `"5--"` (minus not single-leading) contributes `0`, `"12.50"`
is in the grammar and parses, and an item priced `"1.2.3"` adds nothing to
the subtotal. -/
theorem c7_price_parser_spec_witness :
    parseMoney (String.mk ("$12.50".data.filter isMoneyChar)) = parseMoney "$12.50"
    ∧ parseMoney "5--" = 0
    ∧ (parseNumber ("12.50".data.filter isMoneyChar)).isSome = true
    ∧ itemsSubtotalQ ([] ++ (⟨"", "1.2.3", ""⟩ : SQItem) :: []) = itemsSubtotalQ ([] ++ []) :=
  ⟨c7_price_parser_spec.1 "$12.50",
   c7_price_parser_spec.2.1 "5--" (by decide),
   c7_price_parser_spec.2.2.1 "12.50" (by decide),
   c7_price_parser_spec.2.2.2 [] [] ⟨"", "1.2.3", ""⟩ (by decide)⟩

/-! ## Editor state machine (claim C2)

The `fields` React state of `MainApp` (`useState<ServiceQuoteFields | null>`)
with the three operations that write it or send it to the server:

* `refreshFields` (MainApp.tsx lines 95-100): `data?.draft || data?.final ||
  null`, stored through `withComputedTotals`;
* the editor `onChange` (MainApp.tsx line 341): stores
  `withComputedTotals(v)` for every field edit `v`;
* `onSaveFinal` (MainApp.tsx lines 201-223): sends
  `withComputedTotals(fields)` to the server and leaves `fields` unchanged
  until the refetch (itself a `loadFields` event). -/

/-- JavaScript `a || b` on two nullable objects (objects are truthy). -/
def jsOrF (a b : Option ServiceQuoteFields) : Option ServiceQuoteFields :=
  match a with
  | some x => some x
  | none => b

/-- One editor operation on the `fields` state. -/
inductive EditorEvent where
  | loadFields (draft : Option ServiceQuoteFields) (finalF : Option ServiceQuoteFields)
  | editChange (v : ServiceQuoteFields)
  | saveFinal

/-- Effect of one operation: the new `fields` state, plus the snapshot sent
to the server (only `saveFinal` sends one). -/
def editorStep (st : Option ServiceQuoteFields) (e : EditorEvent) :
    Option ServiceQuoteFields × Option ServiceQuoteFields :=
  match e with
  | .loadFields d fin => ((jsOrF d fin).map withComputedTotals, none)
  | .editChange v => (some (withComputedTotals v), none)
  | .saveFinal => (st, st.map withComputedTotals)

/-- The `fields` state after a sequence of operations, from the initial
`null`. -/
def runEditor (es : List EditorEvent) : Option ServiceQuoteFields :=
  es.foldl (fun st e => (editorStep st e).1) none

/-- The derived fields of a snapshot are exactly the pure function of its
line items and the fixed tax rate. -/
def TotalsConsistent (f : ServiceQuoteFields) : Prop :=
  f.subtotal = money2 (subtotalQ f.items)
    ∧ f.tax = money2 (taxQ f.items)
    ∧ f.total = money2 (totalQ f.items)

theorem totalsConsistent_withComputedTotals (f : ServiceQuoteFields) :
    TotalsConsistent (withComputedTotals f) := ⟨rfl, rfl, rfl⟩

theorem editorStep_preserves (st : Option ServiceQuoteFields) (e : EditorEvent)
    (h : ∀ g, st = some g → TotalsConsistent g) :
    ∀ g, (editorStep st e).1 = some g → TotalsConsistent g := by
  cases e with
  | loadFields d fin =>
    intro g hg
    cases hd : jsOrF d fin with
    | none => rw [editorStep, hd] at hg; simp at hg
    | some v =>
      rw [editorStep, hd] at hg
      simp only [Option.map_some'] at hg
      have hg' : withComputedTotals v = g := by injection hg
      rw [← hg']
      exact totalsConsistent_withComputedTotals v
  | editChange v =>
    intro g hg
    simp only [editorStep] at hg
    have hg' : withComputedTotals v = g := by injection hg
    rw [← hg']
    exact totalsConsistent_withComputedTotals v
  | saveFinal => exact h

/-- Claim C2: in every editor state reachable by loading fields, field edits
and save-final, the stored snapshot's derived fields equal the pure function
of its items and the fixed rate, and every snapshot sent to the server does
too — server- or client-supplied totals are never kept. -/
theorem c2_editor_totals_invariant :
    (∀ (es : List EditorEvent) (f : ServiceQuoteFields),
        runEditor es = some f → TotalsConsistent f)
    ∧ (∀ (es : List EditorEvent) (e : EditorEvent) (m : ServiceQuoteFields),
        (editorStep (runEditor es) e).2 = some m → TotalsConsistent m) := by
  have main : ∀ (es : List EditorEvent) (st : Option ServiceQuoteFields),
      (∀ g, st = some g → TotalsConsistent g) →
      ∀ g, es.foldl (fun s e => (editorStep s e).1) st = some g → TotalsConsistent g := by
    intro es
    induction es with
    | nil => intro st h g hg; exact h g (by simpa using hg)
    | cons e es ih =>
      intro st h g hg
      exact ih _ (editorStep_preserves st e h) g (by simpa [List.foldl] using hg)
  have hrun : ∀ (es : List EditorEvent) (f : ServiceQuoteFields),
      runEditor es = some f → TotalsConsistent f := by
    intro es f hf
    exact main es none (by intro g hg; simp at hg) f hf
  refine ⟨hrun, ?_⟩
  intro es e m hm
  cases e with
  | loadFields d fin => simp [editorStep] at hm
  | editChange v => simp [editorStep] at hm
  | saveFinal =>
    cases hst : runEditor es with
    | none => rw [hst] at hm; simp [editorStep] at hm
    | some f =>
      rw [hst] at hm
      simp only [editorStep, Option.map_some'] at hm
      have hm' : withComputedTotals f = m := by injection hm
      rw [← hm']
      exact totalsConsistent_withComputedTotals f

/-- Witness for C2: a concrete trace — load a server snapshot whose totals
fields are absurd strings; the stored state recomputes them, and the
save-final message is consistent as well. -/
theorem c2_editor_totals_invariant_witness :
    TotalsConsistent
      (withComputedTotals
        { mkFields [⟨"Inspection", "100.00", ""⟩] with subtotal := "999", tax := "bogus" })
    ∧ TotalsConsistent
      (withComputedTotals (mkFields [⟨"Inspection", "100.00", ""⟩])) :=
  ⟨c2_editor_totals_invariant.1
      [EditorEvent.loadFields
        (some { mkFields [⟨"Inspection", "100.00", ""⟩] with subtotal := "999", tax := "bogus" })
        none]
      (withComputedTotals
        { mkFields [⟨"Inspection", "100.00", ""⟩] with subtotal := "999", tax := "bogus" })
      rfl,
   c2_editor_totals_invariant.2
      [EditorEvent.editChange (mkFields [⟨"Inspection", "100.00", ""⟩])]
      EditorEvent.saveFinal
      (withComputedTotals (mkFields [⟨"Inspection", "100.00", ""⟩]))
      (by rw [show runEditor [EditorEvent.editChange (mkFields [⟨"Inspection", "100.00", ""⟩])]
            = some (withComputedTotals (mkFields [⟨"Inspection", "100.00", ""⟩])) from rfl]
          rfl)⟩

/-! ## Review page model (ReviewPage.tsx)

The customer decision page.  `claims = decodeJwtPayload(token)` is the
client-side base64 decode of the token payload; the page state keeps its
fields (`doc_id`, `action`, `quote_number`), each possibly absent. -/

/-- Client-decoded token claims (ReviewPage.tsx lines 29-33). -/
structure ReviewClaims where
  doc_id : Option String
  action : Option String
  quote_number : Option String
deriving DecidableEq

/-- The page state of `ReviewPage` (ReviewPage.tsx lines 26-52). -/
structure ReviewState where
  token : String
  claims : Option ReviewClaims
  po : String
  note : String
  reason : String
  loading : Bool
  checking : Bool
  done : Bool
  okM : Option String
  errM : Option String
  decision : Option String
deriving DecidableEq

/-- JavaScript `a || b` for a possibly-absent string (absent and `""` are
falsy). -/
def jsOr (a : Option String) (b : String) : String :=
  match a with
  | some s => if s == "" then b else s
  | none => b

/-- `const docId = claims?.doc_id || ""` (line 31). -/
def docIdOf (pg : ReviewState) : String :=
  jsOr (pg.claims.bind fun c => c.doc_id) ""

/-- `const action = (claims?.action as Action) || ""` (line 32). -/
def actionOf (pg : ReviewState) : String :=
  jsOr (pg.claims.bind fun c => c.action) ""

/-- `claims?.quote_number || docId.slice(0, 8) || ""` (line 33). -/
def quoteNumberOf (pg : ReviewState) : String :=
  jsOr (pg.claims.bind fun c => c.quote_number)
    (jsOr (some (String.mk ((docIdOf pg).data.take 8))) "")

/-- `valid = !!token && !!docId && (action === "accept" || action === "reject")`
(line 51). -/
def validB (pg : ReviewState) : Bool :=
  pg.token != "" && docIdOf pg != ""
    && (actionOf pg == "accept" || actionOf pg == "reject")

/-- `isFinal = decision === "APPROVED" || decision === "REJECTED"` (line 52). -/
def isFinalB (pg : ReviewState) : Bool :=
  pg.decision == some "APPROVED" || pg.decision == some "REJECTED"

/-- The one generic message shown for an invalid link (lines 107 and 175). -/
def invalidLinkMsg : String := "This link is invalid or expired."

/-- Lock message once approved (lines 85 and 111). -/
def alreadyApprovedMsg : String :=
  "Quote is already approved. Contact support@mainlinefire.com if you need help."

/-- Lock message once rejected (lines 86 and 112). -/
def alreadyRejectedMsg : String :=
  "Quote is already rejected. Contact support@mainlinefire.com if you need help."

/-- `errMsg(e)` (lines 21-23): `e?.detail || e?.message || String(e)`. -/
def errMsgOf (detail message : Option String) (fallback : String) : String :=
  jsOr detail (jsOr message fallback)

/-- `x.trim() || null` as used for the request payload fields. -/
def trimOrNone (s : String) : Option String :=
  if jsTrim s == "" then none else some (jsTrim s)

/-- A decision API request issued by the page (`acceptQuote` /
`rejectQuote`, api.ts). -/
inductive QuoteCall where
  | acceptQuote (docId : String) (token : String)
      (quote_po_number : Option String) (quote_note : Option String)
  | rejectQuote (docId : String) (token : String) (reason : Option String)
deriving DecidableEq

/-- The raw token carried by a decision request. -/
def QuoteCall.callToken : QuoteCall → String
  | .acceptQuote _ t _ _ => t
  | .rejectQuote _ t _ => t

/-- `onConfirm` (ReviewPage.tsx lines 104-146), up to the point where the
request is issued: the updated page state and the request sent, if any. -/
def onConfirm (pg : ReviewState) : ReviewState × Option QuoteCall :=
  let pg0 : ReviewState := { pg with errM := none, okM := none }
  if validB pg = false then
    ({ pg0 with errM := some invalidLinkMsg }, none)
  else if isFinalB pg = true then
    ({ pg0 with okM := some (if pg.decision == some "APPROVED" then alreadyApprovedMsg
        else alreadyRejectedMsg) }, none)
  else if actionOf pg == "accept" then
    ({ pg0 with loading := true },
      some (QuoteCall.acceptQuote (docIdOf pg) pg.token (trimOrNone pg.po) (trimOrNone pg.note)))
  else
    ({ pg0 with loading := true },
      some (QuoteCall.rejectQuote (docIdOf pg) pg.token (trimOrNone pg.reason)))

/-- The confirm button's `disabled` predicate (ReviewPage.tsx lines 239-244). -/
def confirmDisabled (pg : ReviewState) : Bool :=
  pg.done || pg.loading || pg.checking
    || (actionOf pg == "reject" && jsTrim pg.reason == "")

/-- A click on the confirm control: the button is rendered only when the
link is valid and the decision is not final (lines 174, 181), and fires only
when not disabled. -/
def clickConfirm (pg : ReviewState) : ReviewState × Option QuoteCall :=
  if validB pg && !isFinalB pg && !confirmDisabled pg then onConfirm pg
  else (pg, none)

/-- Response of `getQuoteDecision` as read by the page (lines 66-81). -/
structure DecisionResponse where
  status : Option String
  quote_po_number : Option String
  quote_note : Option String
  reject_reason : Option String
  reason : Option String
deriving DecidableEq

/-- The decision-check effect (ReviewPage.tsx lines 55-102): interpret the
fetched decision, lock the page when it is final, prefill stored payload
values, and record the status. -/
def applyDecisionCheck (pg : ReviewState) (res : DecisionResponse) : ReviewState :=
  let pg0 : ReviewState := { pg with errM := none, okM := none, checking := false }
  let status := jsToUpper (jsOr res.status "PENDING")
  if status = "APPROVED" then
    { pg0 with decision := some status, done := true
               po := jsOr res.quote_po_number ""
               note := jsOr res.quote_note ""
               okM := some alreadyApprovedMsg }
  else if status = "REJECTED" then
    { pg0 with decision := some status, done := true
               reason := jsOr res.reject_reason (jsOr res.reason "")
               okM := some alreadyRejectedMsg }
  else
    { pg0 with decision := some "PENDING" }

/-! ## Backend decision components, modelled from the specification

The repository sources contain only the frontend; the Decision Recorder and
the token-error surface of the API are modelled from spec sections 4.4 and 7. -/

/-- Decision sub-state of a document (spec section 3). -/
inductive DecisionStatus where
  | PENDING
  | APPROVED
  | REJECTED
deriving DecidableEq

/-- A verified decision action (spec section 4.3). -/
inductive DecisionAction where
  | accept
  | reject
deriving DecidableEq

/-- Decision payload: PO number and note for accept, reason for reject
(spec section 4.4). -/
structure DecisionPayload where
  quote_po_number : Option String
  quote_note : Option String
  reason : Option String
deriving DecidableEq

/-- Decision-relevant part of a document record. -/
structure DocDecision where
  decision_status : DecisionStatus
  payload : Option DecisionPayload
deriving DecidableEq

/-- Outcome of `decide` (spec sections 4.4 and 7). -/
inductive DecideOutcome where
  | ok (applied : Bool) (resulting_status : DecisionStatus)
      (payload : Option DecisionPayload)
  | validationError
deriving DecidableEq

namespace Recorder

/-- Modelled from the spec: the Decision Recorder's
`decide(document_id, verified_action, payload)` (spec section 4.4) is backend
code absent from the sources.  If the status is `PENDING`, apply atomically —
for reject, the reason is required non-empty (an empty one is a
`ValidationError`, rejected before any state mutation, spec section 7); if
already decided, return `applied: false` with the existing status and stored
payload, never re-applying or overwriting. -/
def decide (st : DocDecision) (a : DecisionAction) (p : DecisionPayload) :
    DocDecision × DecideOutcome :=
  match st.decision_status with
  | .PENDING =>
    match a with
    | .accept =>
      let st' : DocDecision :=
        { decision_status := .APPROVED
          payload := some { quote_po_number := p.quote_po_number
                            quote_note := p.quote_note, reason := none } }
      (st', .ok true .APPROVED st'.payload)
    | .reject =>
      if jsTrim (p.reason.getD "") == "" then (st, .validationError)
      else
        let st' : DocDecision :=
          { decision_status := .REJECTED
            payload := some { quote_po_number := none, quote_note := none
                              reason := p.reason } }
        (st', .ok true .REJECTED st'.payload)
  | s => (st, .ok false s st.payload)

end Recorder

/-- Which verification check a decision token fails (spec section 4.3). -/
inductive TokenFailure where
  | malformed
  | badSignature
  | expired
  | wrongAction
deriving DecidableEq

/-- Modelled from the spec: the API surfaces every `TokenError`
(expired / invalid / wrong-action token) to the customer with one generic
invalid-or-expired message, independent of which check failed
(spec section 7). -/
def tokenErrorDetail (_f : TokenFailure) : String := invalidLinkMsg

/-! ## Claims about decisions and the review page -/

/-- Claim C3: once a decision is APPROVED or REJECTED, a further accept or
reject submission is never applied and never overwrites the stored decision
or payload — `decide` returns `applied: false` with the existing status and
stored payload for any action and payload; and on the review page,
`onConfirm` issues no accept/reject request when the decision it fetched is
final. -/
theorem c3_final_decision_immutable :
    (∀ (st : DocDecision) (a : DecisionAction) (p : DecisionPayload),
        st.decision_status ≠ DecisionStatus.PENDING →
        Recorder.decide st a p
          = (st, DecideOutcome.ok false st.decision_status st.payload))
    ∧ (∀ pg : ReviewState, isFinalB pg = true → (onConfirm pg).2 = none)
    ∧ (∀ (pg : ReviewState) (res : DecisionResponse),
        (jsToUpper (jsOr res.status "PENDING") = "APPROVED"
          ∨ jsToUpper (jsOr res.status "PENDING") = "REJECTED") →
        (onConfirm (applyDecisionCheck pg res)).2 = none) := by
  have hpage : ∀ pg : ReviewState, isFinalB pg = true → (onConfirm pg).2 = none := by
    intro pg h
    cases hv : validB pg <;> simp [onConfirm, hv, h]
  refine ⟨?_, hpage, ?_⟩
  · intro st a p h
    rcases st with ⟨status, payload⟩
    cases status with
    | PENDING => exact absurd rfl h
    | APPROVED => cases a <;> rfl
    | REJECTED => cases a <;> rfl
  · intro pg res h
    refine hpage _ ?_
    rcases h with h | h <;> simp [applyDecisionCheck, isFinalB, h]

/-- A document whose decision is already REJECTED, with its stored reason. -/
def rejectedDoc : DocDecision :=
  { decision_status := DecisionStatus.REJECTED
    payload := some { quote_po_number := none, quote_note := none
                      reason := some "too costly" } }

/-- A review-page state whose fetched decision is final (REJECTED). -/
def finalDecisionPg : ReviewState :=
  { token := "header.payload.sig"
    claims := some { doc_id := some "doc-1", action := some "accept", quote_number := none }
    po := "", note := "", reason := "", loading := false, checking := false
    done := true, okM := none, errM := none, decision := some "REJECTED" }

/-- Witness for C3: an accept replay against a REJECTED document changes
nothing and reports the stored reject payload, and the locked page issues no
request. -/
theorem c3_final_decision_immutable_witness :
    Recorder.decide rejectedDoc DecisionAction.accept
        { quote_po_number := some "PO-77", quote_note := none, reason := none }
      = (rejectedDoc,
          DecideOutcome.ok false rejectedDoc.decision_status rejectedDoc.payload)
    ∧ (onConfirm finalDecisionPg).2 = none :=
  ⟨c3_final_decision_immutable.1 rejectedDoc DecisionAction.accept
      { quote_po_number := some "PO-77", quote_note := none, reason := none } (by decide),
   c3_final_decision_immutable.2.1 finalDecisionPg (by decide)⟩

/-- Claim C4: a reject submission whose (trimmed) reason is empty yields a
ValidationError before any state mutation — no decision is recorded; and the
review page's confirm control never issues a reject request while the
trimmed reason is empty. -/
theorem c4_empty_reject_reason :
    (∀ (st : DocDecision) (p : DecisionPayload),
        st.decision_status = DecisionStatus.PENDING →
        jsTrim (p.reason.getD "") = "" →
        Recorder.decide st DecisionAction.reject p = (st, DecideOutcome.validationError))
    ∧ (∀ pg : ReviewState, actionOf pg = "reject" → jsTrim pg.reason = "" →
        (clickConfirm pg).2 = none) := by
  constructor
  · intro st p hst hr
    rcases st with ⟨status, payload⟩
    simp only [DocDecision.decision_status] at hst
    subst hst
    simp [Recorder.decide, hr]
  · intro pg ha hr
    simp [clickConfirm, confirmDisabled, ha, hr]

/-- A pending document. -/
def pendingDoc : DocDecision := { decision_status := DecisionStatus.PENDING, payload := none }

/-- A review-page state for a reject link with a whitespace-only reason. -/
def emptyReasonPg : ReviewState :=
  { token := "header.payload.sig"
    claims := some { doc_id := some "doc-1", action := some "reject", quote_number := none }
    po := "", note := "", reason := "   ", loading := false, checking := false
    done := false, okM := none, errM := none, decision := some "PENDING" }

/-- Witness for C4: a whitespace-only reason is rejected by `decide` with no
mutation, and the confirm control stays inert. -/
theorem c4_empty_reject_reason_witness :
    Recorder.decide pendingDoc DecisionAction.reject
        { quote_po_number := none, quote_note := none, reason := some "  " }
      = (pendingDoc, DecideOutcome.validationError)
    ∧ (clickConfirm emptyReasonPg).2 = none :=
  ⟨c4_empty_reject_reason.1 pendingDoc
      { quote_po_number := none, quote_note := none, reason := some "  " } rfl (by decide),
   c4_empty_reject_reason.2 emptyReasonPg (by decide) (by decide)⟩

/-! ## Claim C5: use of client-decoded claims -/

/-- Formalisation of C5 as stated: the client-decoded claims are used only
for display, i.e. the request issued by `onConfirm` does not depend on them —
two page states differing only in the decoded claims issue the same
request. -/
def ClaimsOnlyDisplay : Prop :=
  ∀ pg pg' : ReviewState,
    pg.token = pg'.token → pg.po = pg'.po → pg.note = pg'.note →
    pg.reason = pg'.reason → pg.loading = pg'.loading →
    pg.checking = pg'.checking → pg.done = pg'.done →
    pg.okM = pg'.okM → pg.errM = pg'.errM → pg.decision = pg'.decision →
    (onConfirm pg).2 = (onConfirm pg').2

/-- A pending review page whose decoded claims say accept. -/
def acceptClaimsPg : ReviewState :=
  { token := "header.payload.sig"
    claims := some { doc_id := some "doc-1", action := some "accept", quote_number := none }
    po := "", note := "", reason := "needs changes", loading := false, checking := false
    done := false, okM := none, errM := none, decision := some "PENDING" }

/-- The same page with the decoded action claim flipped to reject. -/
def rejectClaimsPg : ReviewState :=
  { acceptClaimsPg with
    claims := some { doc_id := some "doc-1", action := some "reject", quote_number := none } }

/-- Counterexample to C5 as stated: flipping only the decoded `action` claim
changes which request `onConfirm` issues (`acceptQuote` vs `rejectQuote`),
so the decoded claims do decide business logic, not only display. -/
theorem c5_claims_only_display_counterexample : ¬ ClaimsOnlyDisplay := by
  intro h
  have hc := h acceptClaimsPg rejectClaimsPg rfl rfl rfl rfl rfl rfl rfl rfl rfl rfl
  exact absurd hc (by decide)

/-- Amended C5: the decoded claims select the endpoint and document of the
request (and pre-validate the link), but they are never sent as authority —
every issued decision request carries the original opaque token, and is only
issued when the link passed the validity check, so authorization still
derives solely from server-side verification of the token. -/
theorem c5_token_is_sole_authority (pg : ReviewState) (c : QuoteCall)
    (h : (onConfirm pg).2 = some c) :
    QuoteCall.callToken c = pg.token ∧ validB pg = true := by
  by_cases h1 : validB pg = false
  · simp [onConfirm, h1] at h
  · have hv : validB pg = true := by
      cases hb : validB pg
      · exact absurd hb h1
      · rfl
    by_cases h2 : isFinalB pg = true
    · simp [onConfirm, h1, h2] at h
    · by_cases h3 : (actionOf pg == "accept") = true
      · simp [onConfirm, h1, h2, h3] at h
        exact ⟨by rw [← h]; rfl, hv⟩
      · simp [onConfirm, h1, h2, h3] at h
        exact ⟨by rw [← h]; rfl, hv⟩

/-- Witness for the amended C5 at a concrete page state. -/
theorem c5_token_is_sole_authority_witness :
    QuoteCall.callToken
        (QuoteCall.acceptQuote "doc-1" "header.payload.sig" none none)
      = acceptClaimsPg.token
    ∧ validB acceptClaimsPg = true :=
  c5_token_is_sole_authority acceptClaimsPg
    (QuoteCall.acceptQuote "doc-1" "header.payload.sig" none none) (by decide)

/-! ## Claim C9: one generic message for token failures -/

/-- Claim C9: every client-detectable token failure (undecodable claims,
missing document id, wrong or missing action) makes the link invalid, an
invalid link surfaces exactly the one generic message and issues no request,
and — with the backend modelled from the spec — every server-side token
verification failure (malformed, bad signature, expired, wrong action)
surfaces through `errMsg` as the same single generic message, revealing
nothing about which check failed. -/
theorem c9_generic_invalid_link_message :
    (∀ pg : ReviewState, pg.claims = none → validB pg = false)
    ∧ (∀ pg : ReviewState,
        actionOf pg ≠ "accept" → actionOf pg ≠ "reject" → validB pg = false)
    ∧ (∀ pg : ReviewState, validB pg = false →
        (onConfirm pg).1.errM = some invalidLinkMsg ∧ (onConfirm pg).2 = none)
    ∧ (∀ f : TokenFailure, tokenErrorDetail f = invalidLinkMsg)
    ∧ (∀ (f : TokenFailure) (m : Option String) (fb : String),
        errMsgOf (some (tokenErrorDetail f)) m fb = invalidLinkMsg) := by
  refine ⟨?_, ?_, ?_, fun f => rfl, fun f m fb => rfl⟩
  · intro pg h
    simp [validB, docIdOf, jsOr, h]
  · intro pg h1 h2
    simp [validB, beq_eq_false_iff_ne.mpr h1, beq_eq_false_iff_ne.mpr h2]
  · intro pg h
    exact ⟨by simp [onConfirm, h], by simp [onConfirm, h]⟩

/-- A page reached through an undecodable token. -/
def malformedTokenPg : ReviewState :=
  { token := "garbage", claims := none
    po := "", note := "", reason := "", loading := false, checking := false
    done := false, okM := none, errM := none, decision := none }

/-- Witness for C9 at concrete inputs: the undecodable-token page is invalid
and surfaces exactly the generic message with no request, and an expired
token surfaces the same generic message through `errMsg`. -/
theorem c9_generic_invalid_link_message_witness :
    validB malformedTokenPg = false
    ∧ (onConfirm malformedTokenPg).1.errM = some invalidLinkMsg
    ∧ (onConfirm malformedTokenPg).2 = none
    ∧ tokenErrorDetail TokenFailure.expired = invalidLinkMsg
    ∧ errMsgOf (some (tokenErrorDetail TokenFailure.expired)) none "Error" = invalidLinkMsg := by
  have h1 := c9_generic_invalid_link_message.1 malformedTokenPg rfl
  have h3 := c9_generic_invalid_link_message.2.2.1 malformedTokenPg h1
  exact ⟨h1, h3.1, h3.2,
    c9_generic_invalid_link_message.2.2.2.1 TokenFailure.expired,
    c9_generic_invalid_link_message.2.2.2.2 TokenFailure.expired none "Error"⟩
